import Mathlib

/-
Verification of the session / database caches of
go/libraries/doltcore/sqle/dsess (file branch.go excerpt, package dsess):
SessionCache (indexes / tables / views keyed by DataCacheKey) and
DatabaseCache (revision databases, initial db states, session-var
fingerprints), including the full-flush eviction at maxCachedKeys.

Embedding conventions:
- Go maps are embedded as association lists (`Gomap`) whose `insert`
  removes every previous binding of the key, so the list length equals the
  number of distinct keys, matching Go's `len`.
- A nil Go map behaves exactly like an empty map for reads, and every
  write path allocates it first, so nil and empty are identified.
- Go's comma-ok lookups `(v, ok)` are embedded as `Option`.
- `strings.ToLower` is embedded ASCII-faithfully via `Char.toLower`
  (the cached names the code handles are ASCII SQL identifiers).
- The `sync.RWMutex` is dropped: every operation is a pure function from
  cache state to cache state, which is the per-critical-section semantics.
- Opaque payload types (`sql.Index` elements, `sql.Table`,
  `InitialDbState`) carry no structure the cache inspects and are
  embedded as `Nat`; `sql.ViewDefinition` keeps its `Name` field, which
  `CacheViews` reads, plus one payload field.
-/

set_option maxRecDepth 200000

namespace Dolt

/-- Association-list embedding of a Go map. `insert` erases all previous
bindings of the key before appending, so the length is the number of
distinct keys (Go's `len`). -/
abbrev Gomap (α β : Type) : Type := List (α × β)

def Gomap.empty {α β : Type} : Gomap α β := []

def Gomap.find? {α β : Type} [DecidableEq α] : Gomap α β → α → Option β
  | [], _ => none
  | (a, b) :: rest, k => if a = k then some b else Gomap.find? rest k

def Gomap.erase {α β : Type} [DecidableEq α] : Gomap α β → α → Gomap α β
  | [], _ => []
  | (a, b) :: rest, k =>
      if a = k then Gomap.erase rest k else (a, b) :: Gomap.erase rest k

def Gomap.insert {α β : Type} [DecidableEq α] (m : Gomap α β) (k : α) (v : β) :
    Gomap α β :=
  Gomap.erase m k ++ [(k, v)]

/-- Number of distinct keys, i.e. Go's `len` of the map. -/
def Gomap.size {α β : Type} (m : Gomap α β) : Nat := m.length

/-- `doltdb.DataCacheKey`: a value wrapping a root hash; equality is value
equality of the hash (embedded as `Nat`). -/
structure DataCacheKey where
  hash : Nat
deriving DecidableEq

/-- Opaque stand-in for a `sql.Index` element; the cache never inspects it. -/
abbrev Index : Type := Nat

/-- Opaque stand-in for a `sql.Table` handle; the cache never inspects it. -/
abbrev Table : Type := Nat

/-- Opaque stand-in for a `dsess.InitialDbState`; the cache never inspects it. -/
abbrev InitialDbState : Type := Nat

/-- `sql.ViewDefinition`: `CacheViews` reads its `Name` field; the rest of
the definition is opaque payload. -/
structure ViewDefinition where
  name : String
  textDefinition : String
deriving DecidableEq

/-- A `dsess.SqlDatabase` as the cache sees it: only the
`RevisionQualifiedName()` and `RequestedName()` accessors are used. -/
structure SqlDatabase where
  revisionQualifiedName : String
  requestedName : String
deriving DecidableEq

/-- Go `strings.ToLower`, restricted to the ASCII range the cached SQL
identifiers use. -/
def toLowerStr (s : String) : String := ⟨s.data.map Char.toLower⟩

/-- `dsess.SessionCache`: three independent two-level maps keyed first by
`DataCacheKey`, then by a lower-cased table/view name. -/
structure SessionCache where
  indexes : Gomap DataCacheKey (Gomap String (List Index))
  tables : Gomap DataCacheKey (Gomap String Table)
  views : Gomap DataCacheKey (Gomap String ViewDefinition)

/-- `dsess.revisionDbCacheKey`: primary key of the revision-db cache. -/
structure RevisionDbCacheKey where
  dbName : String
  requestedName : String
deriving DecidableEq

/-- `dsess.sessionVarCacheKey`: fingerprint (root, head) for session vars. -/
structure SessionVarCacheKey where
  root : DataCacheKey
  head : String
deriving DecidableEq

/-- The `dsess.branchState` fields `CacheSessionVars` reads:
`branchState.dbState.dbName` (flattened here) and `branchState.head`. -/
structure BranchState where
  dbName : String
  head : String

/-- The `dsess.DoltTransaction` capability `CacheSessionVars` uses:
`GetInitialRoot(dbName) -> (root, found)`, embedded as an `Option`-valued
accessor over root hashes. -/
structure DoltTransaction where
  getInitialRoot : String → Option Nat

/-- `dsess.DatabaseCache`: revision databases, initial db states and
session-var fingerprints. -/
structure DatabaseCache where
  revisionDbs : Gomap RevisionDbCacheKey SqlDatabase
  initialDbStates : Gomap DataCacheKey (Gomap String InitialDbState)
  sessionVars : Gomap String SessionVarCacheKey

/-- `const maxCachedKeys = 64`. -/
def maxCachedKeys : Nat := 64

/-- `newSessionCache`: all maps start nil (= empty). -/
def newSessionCache : SessionCache :=
  { indexes := Gomap.empty, tables := Gomap.empty, views := Gomap.empty }

/-- `newDatabaseCache`: `sessionVars` allocated, the other maps nil (= empty). -/
def newDatabaseCache : DatabaseCache :=
  { revisionDbs := Gomap.empty
    initialDbStates := Gomap.empty
    sessionVars := Gomap.empty }

/-- `SessionCache.CacheTableIndexes`: lower-cases the table name, flushes
the whole outer map when it already holds more than `maxCachedKeys` keys,
then stores the indexes under (key, table). -/
def SessionCache.CacheTableIndexes (c : SessionCache) (key : DataCacheKey)
    (table : String) (indexes : List Index) : SessionCache :=
  let table := toLowerStr table
  let outer := if Gomap.size c.indexes > maxCachedKeys then Gomap.empty else c.indexes
  let tableIndexes := (Gomap.find? outer key).getD Gomap.empty
  { c with indexes := Gomap.insert outer key (Gomap.insert tableIndexes table indexes) }

/-- `SessionCache.GetTableIndexesCache`: pure lookup, lower-casing the
table name; `none` when either level misses. -/
def SessionCache.GetTableIndexesCache (c : SessionCache) (key : DataCacheKey)
    (table : String) : Option (List Index) :=
  match Gomap.find? c.indexes key with
  | none => none
  | some tableIndexes => Gomap.find? tableIndexes (toLowerStr table)

/-- `SessionCache.CacheTable`: same shape and eviction as
`CacheTableIndexes`, on the `tables` sub-cache. -/
def SessionCache.CacheTable (c : SessionCache) (key : DataCacheKey)
    (tableName : String) (table : Table) : SessionCache :=
  let tableName := toLowerStr tableName
  let outer := if Gomap.size c.tables > maxCachedKeys then Gomap.empty else c.tables
  let tablesForKey := (Gomap.find? outer key).getD Gomap.empty
  { c with tables := Gomap.insert outer key (Gomap.insert tablesForKey tableName table) }

/-- `SessionCache.ClearTableCache`: deletes every key of the `tables`
outer map. -/
def SessionCache.ClearTableCache (c : SessionCache) : SessionCache :=
  { c with tables := Gomap.empty }

/-- `SessionCache.GetCachedTable`: pure lookup on the `tables` sub-cache. -/
def SessionCache.GetCachedTable (c : SessionCache) (key : DataCacheKey)
    (tableName : String) : Option Table :=
  match Gomap.find? c.tables key with
  | none => none
  | some tablesForKey => Gomap.find? tablesForKey (toLowerStr tableName)

/-- `SessionCache.CacheViews`: flushes the outer map when oversized, then
bulk-inserts the views into the entry for `key` (creating it even for an
empty list), each under its lower-cased name. -/
def SessionCache.CacheViews (c : SessionCache) (key : DataCacheKey)
    (views : List ViewDefinition) : SessionCache :=
  let outer := if Gomap.size c.views > maxCachedKeys then Gomap.empty else c.views
  let viewsForKey := (Gomap.find? outer key).getD Gomap.empty
  let viewsForKey :=
    views.foldl (fun m v => Gomap.insert m (toLowerStr v.name) v) viewsForKey
  { c with views := Gomap.insert outer key viewsForKey }

/-- `SessionCache.ViewsCached`: whether the `views` outer map has an entry
for this exact key. -/
def SessionCache.ViewsCached (c : SessionCache) (key : DataCacheKey) : Bool :=
  (Gomap.find? c.views key).isSome

/-- `SessionCache.GetCachedViewDefinition`: pure lookup, lower-casing the
view name. -/
def SessionCache.GetCachedViewDefinition (c : SessionCache) (key : DataCacheKey)
    (viewName : String) : Option ViewDefinition :=
  match Gomap.find? c.views key with
  | none => none
  | some viewsForKey => Gomap.find? viewsForKey (toLowerStr viewName)

/-- `DatabaseCache.GetCachedRevisionDb`: exact-match lookup on the pair
(revisionDbName, requestedName); no normalization of either argument. -/
def DatabaseCache.GetCachedRevisionDb (c : DatabaseCache)
    (revisionDbName : String) (requestedName : String) : Option SqlDatabase :=
  Gomap.find? c.revisionDbs
    { dbName := revisionDbName, requestedName := requestedName }

/-- `DatabaseCache.CacheRevisionDb`: flushes the map when oversized, then
stores the database under (lower-cased revision-qualified name, requested
name as reported by the database). -/
def DatabaseCache.CacheRevisionDb (c : DatabaseCache) (database : SqlDatabase) :
    DatabaseCache :=
  let outer := if Gomap.size c.revisionDbs > maxCachedKeys then Gomap.empty else c.revisionDbs
  let storedKey : RevisionDbCacheKey :=
    { dbName := toLowerStr database.revisionQualifiedName
      requestedName := database.requestedName }
  { c with revisionDbs := Gomap.insert outer storedKey database }

/-- `DatabaseCache.GetCachedInitialDbState`: pure two-level lookup; no
normalization of `revisionDbName`. -/
def DatabaseCache.GetCachedInitialDbState (c : DatabaseCache)
    (key : DataCacheKey) (revisionDbName : String) : Option InitialDbState :=
  match Gomap.find? c.initialDbStates key with
  | none => none
  | some dbsForKey => Gomap.find? dbsForKey revisionDbName

/-- `DatabaseCache.CacheInitialDbState`: flushes the outer map when
oversized, then stores the state under (key, revisionDbName); no
normalization of `revisionDbName`. -/
def DatabaseCache.CacheInitialDbState (c : DatabaseCache) (key : DataCacheKey)
    (revisionDbName : String) (state : InitialDbState) : DatabaseCache :=
  let outer := if Gomap.size c.initialDbStates > maxCachedKeys then Gomap.empty else c.initialDbStates
  let dbsForKey := (Gomap.find? outer key).getD Gomap.empty
  { c with initialDbStates :=
      Gomap.insert outer key (Gomap.insert dbsForKey revisionDbName state) }

/-- `DatabaseCache.CacheSessionVars`: returns early with `true` when the
transaction has no initial root for the branch's base database name;
otherwise stores the fingerprint (root, head) and returns whether it
differs from the previously stored one (or none was stored). The returned
pair is (Go return value, updated cache). -/
def DatabaseCache.CacheSessionVars (c : DatabaseCache)
    (branchState : BranchState) (transaction : DoltTransaction) :
    Bool × DatabaseCache :=
  let dbBaseName := branchState.dbName
  let existingKey := Gomap.find? c.sessionVars dbBaseName
  match transaction.getInitialRoot dbBaseName with
  | none => (true, c)
  | some root =>
      let newKey : SessionVarCacheKey :=
        { root := { hash := root }, head := branchState.head }
      (decide (existingKey ≠ some newKey),
       { c with sessionVars := Gomap.insert c.sessionVars dbBaseName newKey })

/-- `DatabaseCache.Clear`: unconditionally resets all three maps. -/
def DatabaseCache.Clear (_c : DatabaseCache) : DatabaseCache :=
  { sessionVars := Gomap.empty
    revisionDbs := Gomap.empty
    initialDbStates := Gomap.empty }

/-- State-changing operations of `SessionCache` (lookups are pure and do
not change the state in this embedding). -/
inductive SCOp where
  | cacheTableIndexes (key : DataCacheKey) (table : String) (indexes : List Index)
  | cacheTable (key : DataCacheKey) (tableName : String) (table : Table)
  | clearTableCache
  | cacheViews (key : DataCacheKey) (views : List ViewDefinition)

def applySCOp (c : SessionCache) : SCOp → SessionCache
  | .cacheTableIndexes k t is => c.CacheTableIndexes k t is
  | .cacheTable k t tbl => c.CacheTable k t tbl
  | .clearTableCache => c.ClearTableCache
  | .cacheViews k vs => c.CacheViews k vs

def applySCOps (ops : List SCOp) (c : SessionCache) : SessionCache :=
  ops.foldl applySCOp c

/-- State-changing operations of `DatabaseCache`. -/
inductive DBOp where
  | cacheRevisionDb (database : SqlDatabase)
  | cacheInitialDbState (key : DataCacheKey) (revisionDbName : String) (state : InitialDbState)
  | cacheSessionVars (branchState : BranchState) (transaction : DoltTransaction)
  | clear

def applyDBOp (c : DatabaseCache) : DBOp → DatabaseCache
  | .cacheRevisionDb db => c.CacheRevisionDb db
  | .cacheInitialDbState k n st => c.CacheInitialDbState k n st
  | .cacheSessionVars bs tx => (c.CacheSessionVars bs tx).2
  | .clear => c.Clear

def applyDBOps (ops : List DBOp) (c : DatabaseCache) : DatabaseCache :=
  ops.foldl applyDBOp c

/-- Whether an operation is a `CacheViews` call for the given key. -/
def SCOp.cachesViewsAt (k : DataCacheKey) : SCOp → Bool
  | .cacheViews k' _ => decide (k' = k)
  | _ => false

/-- The capacity-bounded outer maps of `SessionCache` hold at most
`maxCachedKeys + 1` distinct keys. -/
def SessionCache.BoundedKeys (c : SessionCache) : Prop :=
  Gomap.size c.indexes ≤ maxCachedKeys + 1 ∧
  Gomap.size c.tables ≤ maxCachedKeys + 1 ∧
  Gomap.size c.views ≤ maxCachedKeys + 1

/-- The capacity-bounded outer maps of `DatabaseCache` hold at most
`maxCachedKeys + 1` distinct keys. -/
def DatabaseCache.BoundedKeys (c : DatabaseCache) : Prop :=
  Gomap.size c.revisionDbs ≤ maxCachedKeys + 1 ∧
  Gomap.size c.initialDbStates ≤ maxCachedKeys + 1

/-- A run of 65 `Cache*` calls with 65 distinct `DataCacheKey`s on each
sub-cache of a fresh `SessionCache`. -/
def cacheAfter65 : SessionCache :=
  (List.range 65).foldl
    (fun c i =>
      ((c.CacheTableIndexes ⟨i⟩ "t" []).CacheTable ⟨i⟩ "t" 0).CacheViews ⟨i⟩ [])
    newSessionCache

section GomapLemmas

variable {α β : Type} [DecidableEq α]

theorem Gomap.find?_empty (k : α) : Gomap.find? (Gomap.empty : Gomap α β) k = none := rfl

theorem Gomap.find?_append (l₁ l₂ : Gomap α β) (k : α) :
    Gomap.find? (l₁ ++ l₂) k =
      match Gomap.find? l₁ k with
      | some v => some v
      | none => Gomap.find? l₂ k := by
  induction l₁ with
  | nil => simp [Gomap.find?]
  | cons p rest ih =>
    obtain ⟨a, b⟩ := p
    by_cases h : a = k <;> simp [Gomap.find?, h, ih]

theorem Gomap.find?_erase_self (m : Gomap α β) (k : α) :
    Gomap.find? (Gomap.erase m k) k = none := by
  induction m with
  | nil => simp [Gomap.erase, Gomap.find?]
  | cons p rest ih =>
    obtain ⟨a, b⟩ := p
    by_cases h : a = k <;> simp [Gomap.erase, Gomap.find?, h, ih]

theorem Gomap.find?_erase_ne (m : Gomap α β) (k a : α) (h : a ≠ k) :
    Gomap.find? (Gomap.erase m k) a = Gomap.find? m a := by
  induction m with
  | nil => simp [Gomap.erase]
  | cons p rest ih =>
    obtain ⟨x, b⟩ := p
    by_cases hx : x = k
    · subst hx
      simp [Gomap.erase, Gomap.find?, Ne.symm h, ih]
    · by_cases hxa : x = a
      · subst hxa
        simp [Gomap.erase, Gomap.find?, hx]
      · simp [Gomap.erase, Gomap.find?, hx, hxa, ih]

theorem Gomap.find?_insert_self (m : Gomap α β) (k : α) (v : β) :
    Gomap.find? (Gomap.insert m k v) k = some v := by
  rw [Gomap.insert, Gomap.find?_append, Gomap.find?_erase_self]
  simp [Gomap.find?]

theorem Gomap.find?_insert_ne (m : Gomap α β) (k a : α) (v : β) (h : a ≠ k) :
    Gomap.find? (Gomap.insert m k v) a = Gomap.find? m a := by
  rw [Gomap.insert, Gomap.find?_append, ← Gomap.find?_erase_ne m k a h]
  cases hE : Gomap.find? (Gomap.erase m k) a <;> simp [Gomap.find?, Ne.symm h, hE]

theorem Gomap.find?_singleton (a k : α) (v : β) :
    Gomap.find? ([(a, v)] : Gomap α β) k = if a = k then some v else none := by
  by_cases h : a = k <;> simp [Gomap.find?, h]

theorem Gomap.length_erase_le (m : Gomap α β) (k : α) :
    (Gomap.erase m k).length ≤ m.length := by
  induction m with
  | nil => simp [Gomap.erase]
  | cons p rest ih =>
    obtain ⟨a, b⟩ := p
    by_cases h : a = k
    · simp only [Gomap.erase, if_pos h]
      exact Nat.le_succ_of_le ih
    · simpa [Gomap.erase, h] using ih

theorem Gomap.size_insert_le (m : Gomap α β) (k : α) (v : β) :
    Gomap.size (Gomap.insert m k v) ≤ Gomap.size m + 1 := by
  simp only [Gomap.size, Gomap.insert, List.length_append, List.length_singleton]
  exact Nat.add_le_add_right (Gomap.length_erase_le m k) 1

theorem Gomap.size_insert_empty (k : α) (v : β) :
    Gomap.size (Gomap.insert (Gomap.empty : Gomap α β) k v) = 1 := rfl

theorem Gomap.size_flushInsert_le (m : Gomap α β) (k : α) (v : β) :
    Gomap.size
      (Gomap.insert (if Gomap.size m > maxCachedKeys then Gomap.empty else m) k v) ≤
      maxCachedKeys + 1 := by
  by_cases h : Gomap.size m > maxCachedKeys
  · rw [if_pos h, Gomap.size_insert_empty]
    decide
  · rw [if_neg h]
    exact le_trans (Gomap.size_insert_le m k v)
      (Nat.add_le_add_right (Nat.le_of_not_lt h) 1)

end GomapLemmas

/-- Claim C1: for every DataCacheKey k, name n and value v, a lookup with
(k, n) immediately after the corresponding cache operation stored v under
(k, n) — with no intervening eviction or clear — returns (v, true), for
indexes, tables, and views alike (for views, v is the view named n passed
to CacheViews). -/
theorem C1_get_after_cache (c : SessionCache) (k : DataCacheKey) (n : String)
    (is : List Index) (t : Table) (vs : List ViewDefinition) (v : ViewDefinition) :
    (c.CacheTableIndexes k n is).GetTableIndexesCache k n = some is ∧
    (c.CacheTable k n t).GetCachedTable k n = some t ∧
    (c.CacheViews k (vs ++ [v])).GetCachedViewDefinition k v.name = some v := by
  refine ⟨?_, ?_, ?_⟩
  · simp [SessionCache.CacheTableIndexes, SessionCache.GetTableIndexesCache,
      Gomap.find?_insert_self]
  · simp [SessionCache.CacheTable, SessionCache.GetCachedTable,
      Gomap.find?_insert_self]
  · simp [SessionCache.CacheViews, SessionCache.GetCachedViewDefinition,
      List.foldl_append, Gomap.find?_insert_self]

/-- Claim C3: keyed-entry-cache name lookups are case-insensitive — caching
under a name and querying with any casing whose lower-casing agrees hits
and returns the stored value, for indexes, tables, and views alike. -/
theorem C3_case_insensitive_lookup (c : SessionCache) (k : DataCacheKey)
    (n m : String) (h : toLowerStr n = toLowerStr m) (is : List Index)
    (t : Table) (v : ViewDefinition) (hv : v.name = n) :
    (c.CacheTableIndexes k n is).GetTableIndexesCache k m = some is ∧
    (c.CacheTable k n t).GetCachedTable k m = some t ∧
    (c.CacheViews k [v]).GetCachedViewDefinition k m = some v := by
  subst hv
  refine ⟨?_, ?_, ?_⟩
  · simp [SessionCache.CacheTableIndexes, SessionCache.GetTableIndexesCache,
      ← h, Gomap.find?_insert_self]
  · simp [SessionCache.CacheTable, SessionCache.GetCachedTable,
      ← h, Gomap.find?_insert_self]
  · simp [SessionCache.CacheViews, SessionCache.GetCachedViewDefinition,
      ← h, Gomap.find?_insert_self]

theorem C3_case_insensitive_lookup_witness :
    toLowerStr "Foo" = toLowerStr "foo" ∧
    (ViewDefinition.mk "Foo" "select 1").name = "Foo" ∧
    ((newSessionCache.CacheTableIndexes ⟨0⟩ "Foo" [3]).GetTableIndexesCache ⟨0⟩ "foo" = some [3] ∧
      (newSessionCache.CacheTable ⟨0⟩ "Foo" 5).GetCachedTable ⟨0⟩ "foo" = some 5 ∧
      (newSessionCache.CacheViews ⟨0⟩ [ViewDefinition.mk "Foo" "select 1"]).GetCachedViewDefinition
          ⟨0⟩ "foo" = some (ViewDefinition.mk "Foo" "select 1")) :=
  ⟨by decide, rfl,
    C3_case_insensitive_lookup newSessionCache ⟨0⟩ "Foo" "foo" (by decide) [3] 5
      (ViewDefinition.mk "Foo" "select 1") rfl⟩

/-- Claim C5: when the transaction reports no initial root for the branch's
base database name, CacheSessionVars returns true and leaves the whole
DatabaseCache state unchanged. -/
theorem C5_no_root_returns_true_frame (c : DatabaseCache) (bs : BranchState)
    (tx : DoltTransaction) (h : tx.getInitialRoot bs.dbName = none) :
    c.CacheSessionVars bs tx = (true, c) := by
  simp [DatabaseCache.CacheSessionVars, h]

theorem C5_no_root_returns_true_frame_witness :
    (DoltTransaction.mk (fun _ => none)).getInitialRoot
        (BranchState.mk "db" "main").dbName = none ∧
    newDatabaseCache.CacheSessionVars (BranchState.mk "db" "main")
        (DoltTransaction.mk (fun _ => none)) = (true, newDatabaseCache) :=
  ⟨rfl, C5_no_root_returns_true_frame newDatabaseCache (BranchState.mk "db" "main")
      (DoltTransaction.mk (fun _ => none)) rfl⟩

/-- Claim C6: CacheRevisionDb stores under (lower-cased revision-qualified
name, requested name as reported by the database), and GetCachedRevisionDb
is an exact-match lookup on that pair: after caching db into a fresh cache,
a lookup hits exactly when the first argument equals the lower-cased
revision-qualified name and the second equals the requested name,
character for character. -/
theorem C6_revisionDb_exact_match (c : DatabaseCache) (db : SqlDatabase)
    (r q : String) :
    (c.CacheRevisionDb db).GetCachedRevisionDb
        (toLowerStr db.revisionQualifiedName) db.requestedName = some db ∧
    (((newDatabaseCache.CacheRevisionDb db).GetCachedRevisionDb r q).isSome = true ↔
      (r = toLowerStr db.revisionQualifiedName ∧ q = db.requestedName)) := by
  constructor
  · simp [DatabaseCache.CacheRevisionDb, DatabaseCache.GetCachedRevisionDb,
      Gomap.find?_insert_self]
  · have hins : (newDatabaseCache.CacheRevisionDb db).revisionDbs =
        [(RevisionDbCacheKey.mk (toLowerStr db.revisionQualifiedName)
            db.requestedName, db)] := rfl
    rw [DatabaseCache.GetCachedRevisionDb, hins, Gomap.find?_singleton]
    by_cases hk : RevisionDbCacheKey.mk (toLowerStr db.revisionQualifiedName)
        db.requestedName = RevisionDbCacheKey.mk r q
    · rw [if_pos hk]
      rw [RevisionDbCacheKey.mk.injEq] at hk
      simp [hk.1.symm, hk.2.symm]
    · rw [if_neg hk]
      simp only [Option.isSome_none, Bool.false_eq_true, false_iff]
      rintro ⟨hr, hq⟩
      exact hk (by rw [RevisionDbCacheKey.mk.injEq]; exact ⟨hr.symm, hq.symm⟩)

/-- Claim C8: Clear resets all three maps of the DatabaseCache, so every
subsequent lookup for a previously cached key reports not-found and
CacheSessionVars behaves exactly as on a fresh cache. -/
theorem C8_clear_empties_all (c : DatabaseCache) (r q : String)
    (k : DataCacheKey) (n : String) (bs : BranchState) (tx : DoltTransaction) :
    c.Clear = newDatabaseCache ∧
    (c.Clear).GetCachedRevisionDb r q = none ∧
    (c.Clear).GetCachedInitialDbState k n = none ∧
    (c.Clear).CacheSessionVars bs tx = newDatabaseCache.CacheSessionVars bs tx :=
  ⟨rfl, rfl, rfl, rfl⟩

/-- Claim C9: CacheInitialDbState and GetCachedInitialDbState perform no
case normalization on the revision database name — caching under one name
and querying a fresh cache with any different name (in particular another
casing of the same name) misses, while the exact byte-identical name hits. -/
theorem C9_initialDbState_exact_name (k : DataCacheKey) (st : InitialDbState)
    (n n' : String) (h : n ≠ n') (c : DatabaseCache) :
    (newDatabaseCache.CacheInitialDbState k n st).GetCachedInitialDbState k n' = none ∧
    (c.CacheInitialDbState k n st).GetCachedInitialDbState k n = some st := by
  constructor
  · have e : (newDatabaseCache.CacheInitialDbState k n st).initialDbStates =
        [(k, [(n, st)])] := rfl
    rw [DatabaseCache.GetCachedInitialDbState, e, Gomap.find?_singleton, if_pos rfl]
    show Gomap.find? [(n, st)] n' = none
    rw [Gomap.find?_singleton, if_neg h]
  · simp [DatabaseCache.CacheInitialDbState, DatabaseCache.GetCachedInitialDbState,
      Gomap.find?_insert_self]

theorem C9_initialDbState_exact_name_witness :
    "DB/main" ≠ "db/main" ∧
    ((newDatabaseCache.CacheInitialDbState ⟨0⟩ "DB/main" 9).GetCachedInitialDbState
        ⟨0⟩ "db/main" = none ∧
      (newDatabaseCache.CacheInitialDbState ⟨0⟩ "DB/main" 9).GetCachedInitialDbState
        ⟨0⟩ "DB/main" = some 9) :=
  ⟨by decide, C9_initialDbState_exact_name ⟨0⟩ 9 "DB/main" "db/main" (by decide)
      newDatabaseCache⟩

-- Helper for C4: the update CacheSessionVars performs when a root is found.
theorem cacheSessionVars_eq_of_root (d : DatabaseCache) (bs : BranchState)
    (tx : DoltTransaction) (root : Nat)
    (h : tx.getInitialRoot bs.dbName = some root) :
    d.CacheSessionVars bs tx =
      (decide (Gomap.find? d.sessionVars bs.dbName ≠
          some (SessionVarCacheKey.mk ⟨root⟩ bs.head)),
        { d with
          sessionVars :=
            Gomap.insert d.sessionVars bs.dbName (SessionVarCacheKey.mk ⟨root⟩ bs.head) }) := by
  simp [DatabaseCache.CacheSessionVars, h]

/-- Claim C4: when the transaction reports an initial root for the branch's
base database name, CacheSessionVars stores the fingerprint (root, head)
for that name and returns true iff it differs from the previously stored
fingerprint or none was stored; in particular true on a fresh cache, false
on an immediately repeated call, and true again if head changes. -/
theorem C4_sessionVars_fingerprint (c : DatabaseCache) (bs : BranchState)
    (tx : DoltTransaction) (root : Nat)
    (h : tx.getInitialRoot bs.dbName = some root)
    (bs' : BranchState) (hname : bs'.dbName = bs.dbName)
    (hhead : bs'.head ≠ bs.head) :
    Gomap.find? (c.CacheSessionVars bs tx).2.sessionVars bs.dbName =
        some (SessionVarCacheKey.mk ⟨root⟩ bs.head) ∧
    ((c.CacheSessionVars bs tx).1 = true ↔
      Gomap.find? c.sessionVars bs.dbName ≠
        some (SessionVarCacheKey.mk ⟨root⟩ bs.head)) ∧
    (newDatabaseCache.CacheSessionVars bs tx).1 = true ∧
    ((c.CacheSessionVars bs tx).2.CacheSessionVars bs tx).1 = false ∧
    ((c.CacheSessionVars bs tx).2.CacheSessionVars bs' tx).1 = true := by
  have h' : tx.getInitialRoot bs'.dbName = some root := by rw [hname, h]
  refine ⟨?_, ?_, ?_, ?_, ?_⟩
  · rw [cacheSessionVars_eq_of_root c bs tx root h]
    exact Gomap.find?_insert_self _ _ _
  · rw [cacheSessionVars_eq_of_root c bs tx root h]
    simp
  · rw [cacheSessionVars_eq_of_root newDatabaseCache bs tx root h]
    simp [newDatabaseCache, Gomap.find?_empty]
  · rw [cacheSessionVars_eq_of_root c bs tx root h,
      cacheSessionVars_eq_of_root _ bs tx root h]
    simp [Gomap.find?_insert_self]
  · rw [cacheSessionVars_eq_of_root c bs tx root h,
      cacheSessionVars_eq_of_root _ bs' tx root h']
    simp only [hname, Gomap.find?_insert_self, decide_eq_true_eq]
    intro heq
    rw [Option.some.injEq, SessionVarCacheKey.mk.injEq] at heq
    exact hhead heq.2.symm

theorem C4_sessionVars_fingerprint_witness :
    (DoltTransaction.mk (fun _ => some 7)).getInitialRoot
        (BranchState.mk "db" "main").dbName = some 7 ∧
    (BranchState.mk "db" "feature").dbName = (BranchState.mk "db" "main").dbName ∧
    (BranchState.mk "db" "feature").head ≠ (BranchState.mk "db" "main").head ∧
    (Gomap.find? (newDatabaseCache.CacheSessionVars (BranchState.mk "db" "main")
          (DoltTransaction.mk (fun _ => some 7))).2.sessionVars
          (BranchState.mk "db" "main").dbName =
        some (SessionVarCacheKey.mk ⟨7⟩ (BranchState.mk "db" "main").head) ∧
      ((newDatabaseCache.CacheSessionVars (BranchState.mk "db" "main")
          (DoltTransaction.mk (fun _ => some 7))).1 = true ↔
        Gomap.find? newDatabaseCache.sessionVars (BranchState.mk "db" "main").dbName ≠
          some (SessionVarCacheKey.mk ⟨7⟩ (BranchState.mk "db" "main").head)) ∧
      (newDatabaseCache.CacheSessionVars (BranchState.mk "db" "main")
          (DoltTransaction.mk (fun _ => some 7))).1 = true ∧
      ((newDatabaseCache.CacheSessionVars (BranchState.mk "db" "main")
          (DoltTransaction.mk (fun _ => some 7))).2.CacheSessionVars
          (BranchState.mk "db" "main")
          (DoltTransaction.mk (fun _ => some 7))).1 = false ∧
      ((newDatabaseCache.CacheSessionVars (BranchState.mk "db" "main")
          (DoltTransaction.mk (fun _ => some 7))).2.CacheSessionVars
          (BranchState.mk "db" "feature")
          (DoltTransaction.mk (fun _ => some 7))).1 = true) :=
  ⟨rfl, rfl, by decide,
    C4_sessionVars_fingerprint newDatabaseCache (BranchState.mk "db" "main")
      (DoltTransaction.mk (fun _ => some 7)) 7 rfl
      (BranchState.mk "db" "feature") rfl (by decide)⟩

-- Helper for C7: a single non-CacheViews-at-k operation keeps ViewsCached
-- at k false.
theorem viewsCached_false_applySCOp (c : SessionCache) (k : DataCacheKey)
    (op : SCOp) (hop : SCOp.cachesViewsAt k op = false)
    (h : c.ViewsCached k = false) : (applySCOp c op).ViewsCached k = false := by
  cases op with
  | cacheTableIndexes k' t is =>
      simpa [applySCOp, SessionCache.CacheTableIndexes,
        SessionCache.ViewsCached] using h
  | cacheTable k' t tbl =>
      simpa [applySCOp, SessionCache.CacheTable, SessionCache.ViewsCached] using h
  | clearTableCache =>
      simpa [applySCOp, SessionCache.ClearTableCache,
        SessionCache.ViewsCached] using h
  | cacheViews k' vs =>
      have hk : k ≠ k' := fun hkk =>
        of_decide_eq_false hop hkk.symm
      rw [SessionCache.ViewsCached] at h ⊢
      simp only [applySCOp, SessionCache.CacheViews]
      rw [Gomap.find?_insert_ne _ _ _ _ hk]
      by_cases hs : Gomap.size c.views > maxCachedKeys
      · rw [if_pos hs]
        simp [Gomap.find?_empty]
      · rw [if_neg hs]
        exact h

-- Helper for C7: lifted to sequences of operations.
theorem viewsCached_false_applySCOps (ops : List SCOp) (k : DataCacheKey) :
    ∀ c : SessionCache, (∀ op ∈ ops, SCOp.cachesViewsAt k op = false) →
      c.ViewsCached k = false → (applySCOps ops c).ViewsCached k = false := by
  induction ops with
  | nil => intro c _ hc; exact hc
  | cons op rest ih =>
      intro c h hc
      show (applySCOps rest (applySCOp c op)).ViewsCached k = false
      exact ih _ (fun o ho => h o (List.mem_cons_of_mem _ ho))
        (viewsCached_false_applySCOp c k op (h op (List.mem_cons_self _ _)) hc)

/-- Claim C7: ViewsCached k is false after any sequence of cache operations
on a fresh cache that contains no CacheViews call for that exact key, and
true immediately after CacheViews(k, views) — even when the views list is
empty. -/
theorem C7_viewsCached_iff_cached (k : DataCacheKey) (ops : List SCOp)
    (h : ∀ op ∈ ops, SCOp.cachesViewsAt k op = false)
    (c : SessionCache) (vs : List ViewDefinition) :
    (applySCOps ops newSessionCache).ViewsCached k = false ∧
    (c.CacheViews k vs).ViewsCached k = true := by
  constructor
  · exact viewsCached_false_applySCOps ops k newSessionCache h rfl
  · simp [SessionCache.CacheViews, SessionCache.ViewsCached,
      Gomap.find?_insert_self]

theorem C7_viewsCached_iff_cached_witness :
    (∀ op ∈ [SCOp.cacheTableIndexes ⟨0⟩ "t" [], SCOp.cacheViews ⟨1⟩ []],
        SCOp.cachesViewsAt ⟨0⟩ op = false) ∧
    ((applySCOps [SCOp.cacheTableIndexes ⟨0⟩ "t" [], SCOp.cacheViews ⟨1⟩ []]
        newSessionCache).ViewsCached ⟨0⟩ = false ∧
      (newSessionCache.CacheViews ⟨0⟩ []).ViewsCached ⟨0⟩ = true) :=
  ⟨by decide,
    C7_viewsCached_iff_cached ⟨0⟩
      [SCOp.cacheTableIndexes ⟨0⟩ "t" [], SCOp.cacheViews ⟨1⟩ []]
      (by decide) newSessionCache []⟩

/-- Claim C2 is false on the code: after 65 Cache* calls with 65 distinct
DataCacheKeys on every sub-cache of a fresh SessionCache (the 65th call
carrying the 65th distinct key), the first key is still present in all
three sub-caches and each outer map holds all 65 entries — the flush
happens only when a later call finds the map already above 64 keys, not
before the 65th insertion completes. -/
theorem C2_counterexample_65th_insert_keeps_entries :
    Gomap.size cacheAfter65.indexes = 65 ∧
    Gomap.size cacheAfter65.tables = 65 ∧
    Gomap.size cacheAfter65.views = 65 ∧
    cacheAfter65.GetTableIndexesCache ⟨0⟩ "t" = some [] ∧
    cacheAfter65.GetCachedTable ⟨0⟩ "t" = some 0 ∧
    cacheAfter65.ViewsCached ⟨0⟩ = true := by
  decide

/-- Claim C2 amended: a sub-cache is flushed by the cache* call that finds
it already holding more than 64 (that is, 65) distinct DataCacheKeys — so
the clear completes during the 66th insertion, not the 65th: after a
cache* call on a sub-cache whose outer map exceeds 64 keys, lookups for
every previously inserted key report not-found and only the newly inserted
entry remains. -/
theorem C2_amended_flush_on_66th (c : SessionCache) (k k' : DataCacheKey)
    (n n' : String) (is : List Index) (t : Table) (vs : List ViewDefinition)
    (v : ViewDefinition) (hk : k' ≠ k)
    (h1 : Gomap.size c.indexes > maxCachedKeys)
    (h2 : Gomap.size c.tables > maxCachedKeys)
    (h3 : Gomap.size c.views > maxCachedKeys) :
    (Gomap.size (c.CacheTableIndexes k n is).indexes = 1 ∧
      (c.CacheTableIndexes k n is).GetTableIndexesCache k' n' = none ∧
      (c.CacheTableIndexes k n is).GetTableIndexesCache k n = some is) ∧
    (Gomap.size (c.CacheTable k n t).tables = 1 ∧
      (c.CacheTable k n t).GetCachedTable k' n' = none ∧
      (c.CacheTable k n t).GetCachedTable k n = some t) ∧
    (Gomap.size (c.CacheViews k (vs ++ [v])).views = 1 ∧
      (c.CacheViews k (vs ++ [v])).GetCachedViewDefinition k' n' = none ∧
      (c.CacheViews k (vs ++ [v])).GetCachedViewDefinition k v.name = some v) := by
  refine ⟨⟨?_, ?_, ?_⟩, ⟨?_, ?_, ?_⟩, ⟨?_, ?_, ?_⟩⟩
  · simp only [SessionCache.CacheTableIndexes, if_pos h1]
    exact Gomap.size_insert_empty _ _
  · simp only [SessionCache.CacheTableIndexes, SessionCache.GetTableIndexesCache,
      if_pos h1]
    rw [Gomap.find?_insert_ne _ _ _ _ hk]
    rfl
  · simp [SessionCache.CacheTableIndexes, SessionCache.GetTableIndexesCache,
      Gomap.find?_insert_self]
  · simp only [SessionCache.CacheTable, if_pos h2]
    exact Gomap.size_insert_empty _ _
  · simp only [SessionCache.CacheTable, SessionCache.GetCachedTable, if_pos h2]
    rw [Gomap.find?_insert_ne _ _ _ _ hk]
    rfl
  · simp [SessionCache.CacheTable, SessionCache.GetCachedTable,
      Gomap.find?_insert_self]
  · simp only [SessionCache.CacheViews, if_pos h3]
    exact Gomap.size_insert_empty _ _
  · simp only [SessionCache.CacheViews, SessionCache.GetCachedViewDefinition,
      if_pos h3]
    rw [Gomap.find?_insert_ne _ _ _ _ hk]
    rfl
  · simp [SessionCache.CacheViews, SessionCache.GetCachedViewDefinition,
      List.foldl_append, Gomap.find?_insert_self]

theorem C2_amended_flush_on_66th_witness :
    ((⟨0⟩ : DataCacheKey) ≠ ⟨100⟩) ∧
    Gomap.size cacheAfter65.indexes > maxCachedKeys ∧
    Gomap.size cacheAfter65.tables > maxCachedKeys ∧
    Gomap.size cacheAfter65.views > maxCachedKeys ∧
    ((Gomap.size (cacheAfter65.CacheTableIndexes ⟨100⟩ "t" [2]).indexes = 1 ∧
        (cacheAfter65.CacheTableIndexes ⟨100⟩ "t" [2]).GetTableIndexesCache ⟨0⟩ "t" = none ∧
        (cacheAfter65.CacheTableIndexes ⟨100⟩ "t" [2]).GetTableIndexesCache ⟨100⟩ "t" = some [2]) ∧
      (Gomap.size (cacheAfter65.CacheTable ⟨100⟩ "t" 2).tables = 1 ∧
        (cacheAfter65.CacheTable ⟨100⟩ "t" 2).GetCachedTable ⟨0⟩ "t" = none ∧
        (cacheAfter65.CacheTable ⟨100⟩ "t" 2).GetCachedTable ⟨100⟩ "t" = some 2) ∧
      (Gomap.size (cacheAfter65.CacheViews ⟨100⟩ ([] ++ [ViewDefinition.mk "v" "q"])).views = 1 ∧
        (cacheAfter65.CacheViews ⟨100⟩ ([] ++ [ViewDefinition.mk "v" "q"])).GetCachedViewDefinition
            ⟨0⟩ "t" = none ∧
        (cacheAfter65.CacheViews ⟨100⟩ ([] ++ [ViewDefinition.mk "v" "q"])).GetCachedViewDefinition
            ⟨100⟩ (ViewDefinition.mk "v" "q").name = some (ViewDefinition.mk "v" "q"))) :=
  ⟨by decide, by decide, by decide, by decide,
    C2_amended_flush_on_66th cacheAfter65 ⟨100⟩ ⟨0⟩ "t" "t" [2] 2 []
      (ViewDefinition.mk "v" "q") (by decide) (by decide) (by decide) (by decide)⟩

-- Helpers for C10: each mutating operation preserves the size bound.
theorem boundedKeys_applySCOp (c : SessionCache) (op : SCOp)
    (h : c.BoundedKeys) : (applySCOp c op).BoundedKeys := by
  obtain ⟨h1, h2, h3⟩ := h
  cases op with
  | cacheTableIndexes k t is => exact ⟨Gomap.size_flushInsert_le _ _ _, h2, h3⟩
  | cacheTable k t tbl => exact ⟨h1, Gomap.size_flushInsert_le _ _ _, h3⟩
  | clearTableCache => exact ⟨h1, Nat.zero_le _, h3⟩
  | cacheViews k vs => exact ⟨h1, h2, Gomap.size_flushInsert_le _ _ _⟩

theorem boundedKeys_applySCOps (ops : List SCOp) :
    ∀ c : SessionCache, c.BoundedKeys → (applySCOps ops c).BoundedKeys := by
  induction ops with
  | nil => intro c h; exact h
  | cons op rest ih =>
      intro c h
      show (applySCOps rest (applySCOp c op)).BoundedKeys
      exact ih _ (boundedKeys_applySCOp c op h)

theorem cacheSessionVars_preserves_maps (c : DatabaseCache) (bs : BranchState)
    (tx : DoltTransaction) :
    (c.CacheSessionVars bs tx).2.revisionDbs = c.revisionDbs ∧
    (c.CacheSessionVars bs tx).2.initialDbStates = c.initialDbStates := by
  simp only [DatabaseCache.CacheSessionVars]
  cases hr : tx.getInitialRoot bs.dbName <;> simp [hr]

theorem boundedKeys_applyDBOp (c : DatabaseCache) (op : DBOp)
    (h : c.BoundedKeys) : (applyDBOp c op).BoundedKeys := by
  obtain ⟨h1, h2⟩ := h
  cases op with
  | cacheRevisionDb db => exact ⟨Gomap.size_flushInsert_le _ _ _, h2⟩
  | cacheInitialDbState k n st => exact ⟨h1, Gomap.size_flushInsert_le _ _ _⟩
  | cacheSessionVars bs tx =>
      obtain ⟨e1, e2⟩ := cacheSessionVars_preserves_maps c bs tx
      refine ⟨?_, ?_⟩
      · show Gomap.size (c.CacheSessionVars bs tx).2.revisionDbs ≤ maxCachedKeys + 1
        rw [e1]
        exact h1
      · show Gomap.size (c.CacheSessionVars bs tx).2.initialDbStates ≤ maxCachedKeys + 1
        rw [e2]
        exact h2
  | clear => exact ⟨Nat.zero_le _, Nat.zero_le _⟩

theorem boundedKeys_applyDBOps (ops : List DBOp) :
    ∀ c : DatabaseCache, c.BoundedKeys → (applyDBOps ops c).BoundedKeys := by
  induction ops with
  | nil => intro c h; exact h
  | cons op rest ih =>
      intro c h
      show (applyDBOps rest (applyDBOp c op)).BoundedKeys
      exact ih _ (boundedKeys_applyDBOp c op h)

/-- Claim C10: starting from fresh caches, every sequence of operations
leaves each capacity-bounded outer map (indexes, tables, views; revision
dbs, initial db states) with at most maxCachedKeys + 1 = 65 distinct keys,
and 65 is attained, so 65 — not 64 — is the true upper bound. -/
theorem C10_outer_maps_bounded_by_65 (ops : List SCOp) (dops : List DBOp) :
    (applySCOps ops newSessionCache).BoundedKeys ∧
    (applyDBOps dops newDatabaseCache).BoundedKeys ∧
    ∃ ops65 : List SCOp,
      Gomap.size (applySCOps ops65 newSessionCache).indexes = maxCachedKeys + 1 :=
  ⟨boundedKeys_applySCOps ops newSessionCache
      ⟨Nat.zero_le _, Nat.zero_le _, Nat.zero_le _⟩,
    boundedKeys_applyDBOps dops newDatabaseCache ⟨Nat.zero_le _, Nat.zero_le _⟩,
    ⟨(List.range 65).map (fun i => SCOp.cacheTableIndexes ⟨i⟩ "t" []), by decide⟩⟩

end Dolt
